import Mathlib

/-!
Shallow embedding of the stat aggregation and formatting engine of
`src/Frontend/ui-library/src/UI/StatsPanel.ts`.

The registry (`statsMap`, an insertion-ordered `Map<string, Stat>`) is
modelled as a `List Stat` kept in insertion order; JS `Map.has`, `Map.get`
and `Map.set` on an existing key become a boolean scan, a first-match
lookup and a first-match in-place update.  DOM side effects are folded
into the model as the `elementHTML` field of a `Stat` (the text written to
`element.innerHTML`); purely visual tree construction is out of scope.
Numbers appearing in telemetry are modelled as `ℚ` (NaN is not
representable in this model; the code's NaN guards are noted where they
occur).  Locale- and float-formatting routines that live outside the
source file are injected as capabilities, mirroring the spec's design
note that formatting is an injected dependency.
-/

/-- Modelled from the spec: the section identifiers of
`UIConfigurationTypes` (not part of the provided source); the spec lists
the categories session-stats, latency-test and data-channel-latency-test. -/
inductive StatsSections
  | SessionStats
  | LatencyTest
  | DataChannelLatencyTest
  deriving Repr, DecidableEq

/-- Modelled from the spec: a `StatsPanelConfiguration` is a set of
boolean-like flags, one per section category. -/
structure StatsPanelConfiguration where
  sessionStats : Bool
  latencyTest : Bool
  dataChannelLatencyTest : Bool
  deriving Repr, DecidableEq

/-- Modelled from the spec: `isEnabled(config, section)` is a pure lookup
of the section's flag in the configuration (`isSectionEnabled` in
`UIConfigurationTypes`, not part of the provided source). -/
def isSectionEnabled (c : StatsPanelConfiguration) : StatsSections → Bool
  | .SessionStats => c.sessionStats
  | .LatencyTest => c.latencyTest
  | .DataChannelLatencyTest => c.dataChannelLatencyTest

/-- The `Stat` record of StatsPanel.ts lines 19-24: an id, the display
label (`title`), the stat string (`stat`) and the rendered element,
modelled by the text last written to its `innerHTML`. -/
structure Stat where
  id : String
  title : String
  stat : String
  elementHTML : String
  deriving Repr, DecidableEq

/-- The template literal of line 401: `${statLabel}: ${stat}`. -/
def statHTML (statLabel stat : String) : String :=
  statLabel ++ ": " ++ stat

/-- Lines 416-421: `this.statsMap.get(id)` followed by
`value.element.innerHTML = statHTML` — the first (unique, for reachable
states) entry with the given id gets its rendered HTML replaced; the
stored `title` and `stat` fields are not touched by this branch. -/
def setElementHTML : List Stat → String → String → List Stat
  | [], _, _ => []
  | st :: rest, id, html =>
    if st.id == id then { st with elementHTML := html } :: rest
    else st :: setElementHTML rest id html

/-- Lines 404-410: the fresh `Stat` built by the create branch — id,
stat and title copied from the arguments, and the new element's
`innerHTML` set to the rendered `statHTML`. -/
def mkStat (id statLabel stat : String) : Stat :=
  { id := id, title := statLabel, stat := stat, elementHTML := statHTML statLabel stat }

/-- StatsPanel.addOrUpdateStat, lines 396-422.  The early return on a
disabled session-stats section is lines 397-399; the create-and-append
branch (`!this.statsMap.has(id)`) is lines 403-414; the update branch is
lines 416-421. -/
def addOrUpdateStat (cfg : StatsPanelConfiguration) (m : List Stat)
    (id statLabel stat : String) : List Stat :=
  if !(isSectionEnabled cfg StatsSections.SessionStats) then m
  else
    let html := statHTML statLabel stat
    if !(m.any fun st => st.id == id) then
      m ++ [mkStat id statLabel stat]
    else
      setElementHTML m id html

/-- The displayed value of a stat id: the rendered HTML of the first
registry entry carrying that id, if any. -/
def displayOf (m : List Stat) (id : String) : Option String :=
  (m.find? fun st => st.id == id).map Stat.elementHTML

/-- A pending upsert: `(id, statLabel, stat)` as passed to
`addOrUpdateStat`. -/
abbrev Upsert := String × String × String

/-- Applying a straight-line sequence of `addOrUpdateStat` calls to the
registry, in program order. -/
def applyUpserts (cfg : StatsPanelConfiguration) (m : List Stat)
    (l : List Upsert) : List Stat :=
  l.foldl (fun acc t => addOrUpdateStat cfg acc t.1 t.2.1 t.2.2) m

/-! ### External input shapes

These mirror the fields of the library types that StatsPanel.ts reads;
a field guarded in the source by `hasOwnProperty`, `!== undefined` or
optional chaining is an `Option`. -/

/-- Fields of `stats.inboundVideoStats` read by `handleStats`. -/
structure InboundVideoStats where
  bytesReceived : ℚ
  packetsLost : Option Int
  bitrate : Option ℚ
  frameWidth : Option ℚ
  frameHeight : Option ℚ
  framesDecoded : Option Int
  framesPerSecond : Option ℚ
  framesDropped : Option ℚ
  codecId : Option String
  deriving Repr, DecidableEq

/-- Fields of `stats.inboundAudioStats` read by `handleStats`. -/
structure InboundAudioStats where
  bitrate : Option ℚ
  codecId : Option String
  deriving Repr, DecidableEq

/-- Fields of `stats.sessionStats` read by `handleStats`.  The source
guards the QP with `!== undefined && !Number.isNaN`; NaN has no rational
counterpart, so the guard collapses to presence of the option. -/
structure SessionStatsFields where
  runTime : String
  controlsStreamInput : String
  videoEncoderAvgQP : Option ℚ
  deriving Repr, DecidableEq

/-- Modelled from the spec: `CandidatePairStats` (a library type, not part
of the provided source) carries an optional round-trip-time field; a
freshly constructed ("empty") pair has no round-trip-time reading, so it
yields the sentinel.  The source's `hasOwnProperty && isNumber` test
collapses to presence of the option. -/
structure CandidatePairStats where
  currentRoundTripTime : Option ℚ
  deriving Repr, DecidableEq

/-- Modelled from the spec: `new CandidatePairStats()` of line 305 — an
empty pair whose round-trip-time field is absent. -/
def CandidatePairStats.empty : CandidatePairStats := ⟨none⟩

/-- The aggregated snapshot consumed by `handleStats`; `codecs` is the
codec-id → mime-type table (`stats.codecs.get(...)?.mimeType` is a keyed
lookup returning the mime type). -/
structure AggregatedStats where
  inboundVideoStats : InboundVideoStats
  inboundAudioStats : InboundAudioStats
  sessionStats : SessionStatsFields
  codecs : List (String × String)
  activeCandidatePair : Option CandidatePairStats
  deriving Repr, DecidableEq

/-- The library's `stats.getActiveCandidatePair()`, which may be null. -/
def AggregatedStats.getActiveCandidatePair (s : AggregatedStats) :
    Option CandidatePairStats :=
  s.activeCandidatePair

/-- Fields of the library's `LatencyInfo` read by `handleLatencyInfo`,
each guarded in the source by `!== undefined`. -/
structure LatencyInfo where
  SenderLatencyMs : Option ℚ
  AverageAssemblyDelayMs : Option ℚ
  AverageDecodeLatencyMs : Option ℚ
  AverageJitterBufferDelayMs : Option ℚ
  AverageProcessingDelayMs : Option ℚ
  AverageE2ELatency : Option ℚ
  deriving Repr, DecidableEq

/-- Modelled from the spec: formatting routines living outside the source
file, injected as capabilities (spec §9: locale-dependent formatting is
an injected dependency).  `numberFormat` is
`Intl.NumberFormat(locale, maximumFractionDigits 0).format`;
`numToString` is JS `Number.prototype.toString` on possibly fractional
numbers; `formatBytes` is `MathUtils.formatBytes(·, 2)`. -/
structure Formatters where
  numberFormat : Int → String
  numToString : ℚ → String
  formatBytes : ℚ → String

/-- JS `Map.get` on the codec table: first entry with the given key. -/
def mapGet : List (String × String) → String → Option String
  | [], _ => none
  | (k, v) :: rest, key => if k == key then some v else mapGet rest key

/-- JS `String.prototype.replace` with a string pattern on character
lists: replaces the first occurrence of `pat` (the leftmost match wins)
and leaves the rest of the string untouched. -/
def replaceFirstList (pat repl : List Char) : List Char → List Char
  | [] => if pat.isPrefixOf ([] : List Char) then repl else []
  | c :: rest =>
    if pat.isPrefixOf (c :: rest) then repl ++ (c :: rest).drop pat.length
    else c :: replaceFirstList pat repl rest

/-- JS `s.replace(pat, repl)` for a string pattern: first occurrence only. -/
def jsReplaceFirst (s pat repl : String) : String :=
  ⟨replaceFirstList pat.toList repl.toList s.toList⟩

/-- The sentinel of line 312, spelled without a literal apostrophe
character: `Can` + U+0027 + `t calculate`. -/
def cannotCalculate : String :=
  "Can" ++ String.singleton (Char.ofNat 39) ++ "t calculate"

/-! ### handleStats, lines 218-336

The body is a straight-line sequence of (possibly guarded) calls to
`addOrUpdateStat`; it is embedded as the list of emitted upserts, in
program order, folded over the registry.  One segment per source block. -/

/-- Lines 224-226: inbound data, always upserted. -/
def inboundDataSeg (F : Formatters) (stats : AggregatedStats) : List Upsert :=
  [("InboundDataStat", "Received", F.formatBytes stats.inboundVideoStats.bytesReceived)]

/-- Lines 228-232: packets lost — locale-formatted when the field exists,
sentinel `"Chrome only"` otherwise; always upserted. -/
def packetsLostSeg (F : Formatters) (stats : AggregatedStats) : List Upsert :=
  [("PacketsLostStat", "Packets Lost",
    match stats.inboundVideoStats.packetsLost with
    | some p => F.numberFormat p
    | none => "Chrome only")]

/-- Lines 234-241: video bitrate — upserted only when truthy (present and
nonzero; JS `if (x)`). -/
def videoBitrateSeg (F : Formatters) (stats : AggregatedStats) : List Upsert :=
  match stats.inboundVideoStats.bitrate with
  | some b =>
    if b ≠ 0 then [("VideoBitrateStat", "Video Bitrate (kbps)", F.numToString b)] else []
  | none => []

/-- Lines 243-249: audio bitrate, same truthiness guard. -/
def audioBitrateSeg (F : Formatters) (stats : AggregatedStats) : List Upsert :=
  match stats.inboundAudioStats.bitrate with
  | some b =>
    if b ≠ 0 then [("AudioBitrateStat", "Audio Bitrate (kbps)", F.numToString b)] else []
  | none => []

/-- Lines 251-259: resolution — `"{width}x{height}"` when both fields
exist and are truthy, sentinel otherwise; always upserted. -/
def videoResSeg (F : Formatters) (stats : AggregatedStats) : List Upsert :=
  [("VideoResStat", "Video resolution",
    match stats.inboundVideoStats.frameWidth, stats.inboundVideoStats.frameHeight with
    | some w, some h =>
      if w ≠ 0 ∧ h ≠ 0 then F.numToString w ++ "x" ++ F.numToString h
      else "Chrome only"
    | _, _ => "Chrome only")]

/-- Lines 261-265: frames decoded — formatted when present, sentinel
otherwise; always upserted. -/
def framesDecodedSeg (F : Formatters) (stats : AggregatedStats) : List Upsert :=
  [("FramesDecodedStat", "Frames Decoded",
    match stats.inboundVideoStats.framesDecoded with
    | some p => F.numberFormat p
    | none => "Chrome only")]

/-- Lines 267-274: framerate — upserted only when truthy. -/
def framerateSeg (F : Formatters) (stats : AggregatedStats) : List Upsert :=
  match stats.inboundVideoStats.framesPerSecond with
  | some f => if f ≠ 0 then [("FramerateStat", "Framerate", F.numToString f)] else []
  | none => []

/-- Lines 276-281: frames dropped — always upserted with
`framesDropped?.toString()` interpolated; an absent field interpolates as
the literal text `undefined`. -/
def framesDroppedSeg (F : Formatters) (stats : AggregatedStats) : List Upsert :=
  [("FramesDroppedStat", "Frames dropped",
    match stats.inboundVideoStats.framesDropped with
    | some v => F.numToString v
    | none => "undefined")]

/-- Lines 283-290: video codec — upserted only when `codecId` is truthy
(present and nonempty); value is the mime type with the first occurrence
of `"video/"` removed, or the empty string when the codec table has no
entry for the id (`?? ''`). -/
def videoCodecSeg (stats : AggregatedStats) : List Upsert :=
  match stats.inboundVideoStats.codecId with
  | some cid =>
    if cid ≠ "" then
      [("VideoCodecStat", "Video codec",
        match mapGet stats.codecs cid with
        | some mime => jsReplaceFirst mime "video/" ""
        | none => "")]
    else []
  | none => []

/-- Lines 292-299: audio codec, symmetric to the video codec block. -/
def audioCodecSeg (stats : AggregatedStats) : List Upsert :=
  match stats.inboundAudioStats.codecId with
  | some cid =>
    if cid ≠ "" then
      [("AudioCodecStat", "Audio codec",
        match mapGet stats.codecs cid with
        | some mime => jsReplaceFirst mime "audio/" ""
        | none => "")]
    else []
  | none => []

/-- Lines 301-313: the RTT value — the active candidate pair (or an empty
pair when none is active); `Math.ceil(rtt * 1000).toString()` when the
round-trip-time field is present and numeric, the sentinel otherwise. -/
def rttValue (stats : AggregatedStats) : String :=
  match (match stats.getActiveCandidatePair with
         | some p => p
         | none => CandidatePairStats.empty).currentRoundTripTime with
  | some rtt => toString ⌈rtt * 1000⌉
  | none => cannotCalculate

/-- Line 313: the RTT stat is always upserted. -/
def rttSeg (stats : AggregatedStats) : List Upsert :=
  [("RTTStat", "Net RTT (ms)", rttValue stats)]

/-- Line 315: session duration, passed through verbatim. -/
def durationSeg (stats : AggregatedStats) : List Upsert :=
  [("DurationStat", "Duration", stats.sessionStats.runTime)]

/-- Lines 317-321: controls stream input, passed through verbatim. -/
def controlsSeg (stats : AggregatedStats) : List Upsert :=
  [("ControlsInputStat", "Controls stream input", stats.sessionStats.controlsStreamInput)]

/-- Lines 323-333: encoder QP — upserted only when defined (the source
additionally rejects NaN, which the rational model cannot represent). -/
def qpSeg (F : Formatters) (stats : AggregatedStats) : List Upsert :=
  match stats.sessionStats.videoEncoderAvgQP with
  | some qp => [("QPStat", "Video quantization parameter", F.numToString qp)]
  | none => []

/-- The full emission sequence of `handleStats`, in source order
(lines 224-333).  The trailing `Logger.Info` call has no registry
effect and is omitted. -/
def handleStatsUpserts (F : Formatters) (stats : AggregatedStats) : List Upsert :=
  inboundDataSeg F stats ++ packetsLostSeg F stats ++ videoBitrateSeg F stats ++
  audioBitrateSeg F stats ++ videoResSeg F stats ++ framesDecodedSeg F stats ++
  framerateSeg F stats ++ framesDroppedSeg F stats ++ videoCodecSeg stats ++
  audioCodecSeg stats ++ rttSeg stats ++ durationSeg stats ++ controlsSeg stats ++
  qpSeg F stats

/-- StatsPanel.handleStats, lines 218-336: apply the emitted upserts to
the registry in program order. -/
def handleStats (F : Formatters) (cfg : StatsPanelConfiguration)
    (m : List Stat) (stats : AggregatedStats) : List Stat :=
  applyUpserts cfg m (handleStatsUpserts F stats)

/-- The shared shape of the six guarded blocks of `handleLatencyInfo`
(lines 339-388): upsert only when the field is defined and strictly
positive, with value `Math.ceil(field).toString()`. -/
def latencyEntry (id title : String) (v : Option ℚ) : List Upsert :=
  match v with
  | some x => if x > 0 then [(id, title, toString ⌈x⌉)] else []
  | none => []

/-- The emission sequence of `handleLatencyInfo`, lines 338-389, in
source order. -/
def handleLatencyInfoUpserts (li : LatencyInfo) : List Upsert :=
  latencyEntry "SenderSideLatency" "Sender latency (ms)" li.SenderLatencyMs ++
  latencyEntry "AvgAssemblyDelay" "Assembly delay (ms)" li.AverageAssemblyDelayMs ++
  latencyEntry "AvgDecodeDelay" "Decode time (ms)" li.AverageDecodeLatencyMs ++
  latencyEntry "AvgJitterBufferDelay" "Jitter buffer (ms)" li.AverageJitterBufferDelayMs ++
  latencyEntry "AvgProcessingDelay" "Processing delay (ms)" li.AverageProcessingDelayMs ++
  latencyEntry "AvgE2ELatency" "Total latency (ms)" li.AverageE2ELatency

/-- StatsPanel.handleLatencyInfo, lines 338-389. -/
def handleLatencyInfo (cfg : StatsPanelConfiguration) (m : List Stat)
    (li : LatencyInfo) : List Stat :=
  applyUpserts cfg m (handleLatencyInfoUpserts li)

/-- StatsPanel.handlePlayerCount, lines 210-212:
`addOrUpdateStat('PlayerCountStat', 'Players', playerCount.toString())`.
The spec types the player count as a non-negative integer, whose JS
`toString` is its decimal representation. -/
def handlePlayerCount (cfg : StatsPanelConfiguration) (m : List Stat)
    (playerCount : Nat) : List Stat :=
  addOrUpdateStat cfg m "PlayerCountStat" "Players" (toString playerCount)

/-! ### Registry lemmas -/

theorem addOrUpdateStat_disabled (cfg : StatsPanelConfiguration) (m : List Stat)
    (id lab s : String) (h : isSectionEnabled cfg StatsSections.SessionStats = false) :
    addOrUpdateStat cfg m id lab s = m := by
  simp [addOrUpdateStat, h]

theorem applyUpserts_nil (cfg : StatsPanelConfiguration) (m : List Stat) :
    applyUpserts cfg m [] = m := rfl

theorem applyUpserts_cons (cfg : StatsPanelConfiguration) (m : List Stat)
    (t : Upsert) (l : List Upsert) :
    applyUpserts cfg m (t :: l) =
      applyUpserts cfg (addOrUpdateStat cfg m t.1 t.2.1 t.2.2) l := rfl

theorem applyUpserts_append (cfg : StatsPanelConfiguration) (m : List Stat)
    (l1 l2 : List Upsert) :
    applyUpserts cfg m (l1 ++ l2) = applyUpserts cfg (applyUpserts cfg m l1) l2 := by
  simp [applyUpserts, List.foldl_append]

theorem applyUpserts_disabled (cfg : StatsPanelConfiguration) (m : List Stat)
    (l : List Upsert) (h : isSectionEnabled cfg StatsSections.SessionStats = false) :
    applyUpserts cfg m l = m := by
  induction l generalizing m with
  | nil => rfl
  | cons t rest ih => rw [applyUpserts_cons, addOrUpdateStat_disabled cfg m _ _ _ h, ih]

theorem setElementHTML_map_id (m : List Stat) (id html : String) :
    (setElementHTML m id html).map Stat.id = m.map Stat.id := by
  induction m with
  | nil => rfl
  | cons st rest ih =>
    by_cases h : st.id == id <;> simp [setElementHTML, h, ih]

theorem setElementHTML_map_title (m : List Stat) (id html : String) :
    (setElementHTML m id html).map Stat.title = m.map Stat.title := by
  induction m with
  | nil => rfl
  | cons st rest ih =>
    by_cases h : st.id == id <;> simp [setElementHTML, h, ih]

theorem setElementHTML_map_stat (m : List Stat) (id html : String) :
    (setElementHTML m id html).map Stat.stat = m.map Stat.stat := by
  induction m with
  | nil => rfl
  | cons st rest ih =>
    by_cases h : st.id == id <;> simp [setElementHTML, h, ih]

theorem setElementHTML_any (m : List Stat) (id html j : String) :
    ((setElementHTML m id html).any fun st => st.id == j) =
      (m.any fun st => st.id == j) := by
  induction m with
  | nil => rfl
  | cons st rest ih =>
    by_cases h : st.id == id <;> simp [setElementHTML, h, ih]

theorem setElementHTML_displayOf_self (m : List Stat) (id html : String)
    (h : (m.any fun st => st.id == id) = true) :
    displayOf (setElementHTML m id html) id = some html := by
  induction m with
  | nil => simp at h
  | cons st rest ih =>
    by_cases hst : st.id == id
    · simp [setElementHTML, displayOf, List.find?, hst]
    · have hrest : (rest.any fun st => st.id == id) = true := by
        simpa [hst] using h
      simpa [setElementHTML, displayOf, List.find?, hst] using ih hrest

theorem setElementHTML_displayOf_other (m : List Stat) (id html j : String)
    (hne : j ≠ id) :
    displayOf (setElementHTML m id html) j = displayOf m j := by
  induction m with
  | nil => rfl
  | cons st rest ih =>
    by_cases hst : st.id == id
    · have hst' : st.id = id := by simpa using hst
      have hj : (st.id == j) = false := by
        simp only [beq_eq_false_iff_ne, hst']
        exact fun hc => hne hc.symm
      simp [setElementHTML, displayOf, List.find?, hst, hj]
    · by_cases hj : st.id == j
      · simp [setElementHTML, displayOf, List.find?, hst, hj]
      · simpa [setElementHTML, displayOf, List.find?, hst, hj] using ih

theorem setElementHTML_idem (m : List Stat) (id html : String) :
    setElementHTML (setElementHTML m id html) id html = setElementHTML m id html := by
  induction m with
  | nil => rfl
  | cons st rest ih =>
    by_cases h : st.id == id <;> simp [setElementHTML, h, ih]

theorem setElementHTML_fresh (m : List Stat) (id html : String)
    (h : (m.any fun st => st.id == id) = false) :
    setElementHTML m id html = m := by
  induction m with
  | nil => rfl
  | cons st rest ih =>
    simp only [List.any_cons, Bool.or_eq_false_iff] at h
    simp [setElementHTML, h.1, ih h.2]

theorem displayOf_append_fresh (m l : List Stat) (id : String)
    (h : (m.any fun st => st.id == id) = false) :
    displayOf (m ++ l) id = displayOf l id := by
  induction m with
  | nil => rfl
  | cons st rest ih =>
    simp only [List.any_cons, Bool.or_eq_false_iff] at h
    simp [displayOf, List.find?, h.1]
    simpa [displayOf] using ih h.2

theorem displayOf_append_single_other (m : List Stat) (st : Stat) (j : String)
    (h : (st.id == j) = false) :
    displayOf (m ++ [st]) j = displayOf m j := by
  induction m with
  | nil => simp [displayOf, List.find?, h]
  | cons hd rest ih =>
    by_cases hj : hd.id == j
    · simp [displayOf, List.find?, hj]
    · simpa [displayOf, List.find?, hj] using ih

theorem displayOf_addOrUpdateStat_self (cfg : StatsPanelConfiguration)
    (m : List Stat) (id lab s : String)
    (hE : isSectionEnabled cfg StatsSections.SessionStats = true) :
    displayOf (addOrUpdateStat cfg m id lab s) id = some (statHTML lab s) := by
  by_cases hA : (m.any fun st => st.id == id) = true
  · have : addOrUpdateStat cfg m id lab s = setElementHTML m id (statHTML lab s) := by
      simp [addOrUpdateStat, hE, hA]
    rw [this, setElementHTML_displayOf_self m id _ hA]
  · have hA' : (m.any fun st => st.id == id) = false := by
      simpa using hA
    have : addOrUpdateStat cfg m id lab s =
        m ++ [mkStat id lab s] := by
      simp [addOrUpdateStat, hE, hA']
    rw [this, displayOf_append_fresh m _ id hA']
    simp [displayOf, List.find?, mkStat]

theorem displayOf_addOrUpdateStat_other (cfg : StatsPanelConfiguration)
    (m : List Stat) (id lab s j : String) (hne : j ≠ id) :
    displayOf (addOrUpdateStat cfg m id lab s) j = displayOf m j := by
  by_cases hE : isSectionEnabled cfg StatsSections.SessionStats
  · by_cases hA : (m.any fun st => st.id == id) = true
    · have : addOrUpdateStat cfg m id lab s = setElementHTML m id (statHTML lab s) := by
        simp [addOrUpdateStat, hE, hA]
      rw [this, setElementHTML_displayOf_other m id _ j hne]
    · have hA' : (m.any fun st => st.id == id) = false := by
        simpa using hA
      have hrw : addOrUpdateStat cfg m id lab s =
          m ++ [mkStat id lab s] := by
        simp [addOrUpdateStat, hE, hA']
      have hid : (id == j) = false := by
        simp only [beq_eq_false_iff_ne]
        exact fun hc => hne hc.symm
      rw [hrw, displayOf_append_single_other m _ j hid]
  · have hE' : isSectionEnabled cfg StatsSections.SessionStats = false := by
      simpa using hE
    rw [addOrUpdateStat_disabled cfg m id lab s hE']

theorem displayOf_applyUpserts_other (cfg : StatsPanelConfiguration)
    (m : List Stat) (l : List Upsert) (j : String)
    (hl : ∀ t ∈ l, t.1 ≠ j) :
    displayOf (applyUpserts cfg m l) j = displayOf m j := by
  induction l generalizing m with
  | nil => rfl
  | cons t rest ih =>
    rw [applyUpserts_cons]
    have h1 : j ≠ t.1 := fun hc => hl t (by simp) hc.symm
    rw [ih _ fun u hu => hl u (by simp [hu]),
      displayOf_addOrUpdateStat_other cfg m t.1 t.2.1 t.2.2 j h1]

theorem displayOf_pipeline (cfg : StatsPanelConfiguration) (m : List Stat)
    (pre post : List Upsert) (id lab s : String)
    (hE : isSectionEnabled cfg StatsSections.SessionStats = true)
    (hpost : ∀ t ∈ post, t.1 ≠ id) :
    displayOf (applyUpserts cfg m (pre ++ (id, lab, s) :: post)) id =
      some (statHTML lab s) := by
  rw [applyUpserts_append, applyUpserts_cons,
    displayOf_applyUpserts_other cfg _ post id hpost,
    displayOf_addOrUpdateStat_self _ _ _ _ _ hE]

theorem addOrUpdateStat_map_id (cfg : StatsPanelConfiguration) (m : List Stat)
    (id lab s : String) :
    ∃ t, (addOrUpdateStat cfg m id lab s).map Stat.id = m.map Stat.id ++ t := by
  by_cases hE : isSectionEnabled cfg StatsSections.SessionStats
  · by_cases hA : (m.any fun st => st.id == id) = true
    · refine ⟨[], ?_⟩
      have : addOrUpdateStat cfg m id lab s = setElementHTML m id (statHTML lab s) := by
        simp [addOrUpdateStat, hE, hA]
      simp [this, setElementHTML_map_id]
    · refine ⟨[id], ?_⟩
      have hA' : (m.any fun st => st.id == id) = false := by simpa using hA
      have : addOrUpdateStat cfg m id lab s =
          m ++ [mkStat id lab s] := by
        simp [addOrUpdateStat, hE, hA']
      simp [this, mkStat]
  · have hE' : isSectionEnabled cfg StatsSections.SessionStats = false := by simpa using hE
    exact ⟨[], by simp [addOrUpdateStat_disabled cfg m id lab s hE']⟩

theorem applyUpserts_map_id (cfg : StatsPanelConfiguration) (m : List Stat)
    (l : List Upsert) :
    ∃ t, (applyUpserts cfg m l).map Stat.id = m.map Stat.id ++ t := by
  induction l generalizing m with
  | nil => exact ⟨[], by simp [applyUpserts_nil]⟩
  | cons u rest ih =>
    rw [applyUpserts_cons]
    obtain ⟨t1, ht1⟩ := addOrUpdateStat_map_id cfg m u.1 u.2.1 u.2.2
    obtain ⟨t2, ht2⟩ := ih (addOrUpdateStat cfg m u.1 u.2.1 u.2.2)
    exact ⟨t1 ++ t2, by rw [ht2, ht1, List.append_assoc]⟩

/-- The ids a sequence of upserts appends, in first-insertion order:
an id already seen is skipped, a new id is appended and becomes seen. -/
def newIds (seen : List String) : List String → List String
  | [] => []
  | x :: xs =>
    if seen.any (fun y => y == x) then newIds seen xs
    else x :: newIds (seen ++ [x]) xs

theorem any_map_id (m : List Stat) (i : String) :
    ((m.map Stat.id).any fun y => y == i) = (m.any fun st => st.id == i) := by
  induction m with
  | nil => rfl
  | cons st rest ih => simp [ih]

theorem upsertMem_fst {I L V : String} {t : Upsert}
    (ht : t ∈ ([(I, L, V)] : List Upsert)) : t.1 = I := by
  simp only [List.mem_singleton] at ht
  rw [ht]

theorem displayOf_applyUpserts_singleton (cfg : StatsPanelConfiguration)
    (m : List Stat) (id lab s : String)
    (hE : isSectionEnabled cfg StatsSections.SessionStats = true) :
    displayOf (applyUpserts cfg m [(id, lab, s)]) id = some (statHTML lab s) := by
  rw [applyUpserts_cons, applyUpserts_nil]
  exact displayOf_addOrUpdateStat_self cfg m id lab s hE

theorem setElementHTML_append_fresh (m l : List Stat) (id html : String)
    (h : (m.any fun st => st.id == id) = false) :
    setElementHTML (m ++ l) id html = m ++ setElementHTML l id html := by
  induction m with
  | nil => rfl
  | cons st rest ih =>
    simp only [List.any_cons, Bool.or_eq_false_iff] at h
    simp [setElementHTML, h.1, ih h.2]

/-! ### Per-segment id facts: each emission block of `handleStats` only
ever emits its own fixed stat id. -/

theorem inboundDataSeg_ids (F : Formatters) (stats : AggregatedStats) :
    ∀ t ∈ inboundDataSeg F stats, t.1 = "InboundDataStat" := by
  intro t ht
  exact upsertMem_fst (by simpa [inboundDataSeg] using ht)

theorem packetsLostSeg_ids (F : Formatters) (stats : AggregatedStats) :
    ∀ t ∈ packetsLostSeg F stats, t.1 = "PacketsLostStat" := by
  intro t ht
  exact upsertMem_fst (by simpa [packetsLostSeg] using ht)

theorem videoBitrateSeg_ids (F : Formatters) (stats : AggregatedStats) :
    ∀ t ∈ videoBitrateSeg F stats, t.1 = "VideoBitrateStat" := by
  intro t ht
  rcases hb : stats.inboundVideoStats.bitrate with _ | b
  · simp [videoBitrateSeg, hb] at ht
  · simp only [videoBitrateSeg, hb] at ht
    by_cases h0 : b ≠ 0
    · rw [if_pos h0] at ht
      exact upsertMem_fst ht
    · rw [if_neg h0] at ht
      simp at ht

theorem audioBitrateSeg_ids (F : Formatters) (stats : AggregatedStats) :
    ∀ t ∈ audioBitrateSeg F stats, t.1 = "AudioBitrateStat" := by
  intro t ht
  rcases hb : stats.inboundAudioStats.bitrate with _ | b
  · simp [audioBitrateSeg, hb] at ht
  · simp only [audioBitrateSeg, hb] at ht
    by_cases h0 : b ≠ 0
    · rw [if_pos h0] at ht
      exact upsertMem_fst ht
    · rw [if_neg h0] at ht
      simp at ht

theorem videoResSeg_ids (F : Formatters) (stats : AggregatedStats) :
    ∀ t ∈ videoResSeg F stats, t.1 = "VideoResStat" := by
  intro t ht
  exact upsertMem_fst (by simpa [videoResSeg] using ht)

theorem framesDecodedSeg_ids (F : Formatters) (stats : AggregatedStats) :
    ∀ t ∈ framesDecodedSeg F stats, t.1 = "FramesDecodedStat" := by
  intro t ht
  exact upsertMem_fst (by simpa [framesDecodedSeg] using ht)

theorem framerateSeg_ids (F : Formatters) (stats : AggregatedStats) :
    ∀ t ∈ framerateSeg F stats, t.1 = "FramerateStat" := by
  intro t ht
  rcases hf : stats.inboundVideoStats.framesPerSecond with _ | f
  · simp [framerateSeg, hf] at ht
  · simp only [framerateSeg, hf] at ht
    by_cases h0 : f ≠ 0
    · rw [if_pos h0] at ht
      exact upsertMem_fst ht
    · rw [if_neg h0] at ht
      simp at ht

theorem framesDroppedSeg_ids (F : Formatters) (stats : AggregatedStats) :
    ∀ t ∈ framesDroppedSeg F stats, t.1 = "FramesDroppedStat" := by
  intro t ht
  exact upsertMem_fst (by simpa [framesDroppedSeg] using ht)

theorem videoCodecSeg_ids (stats : AggregatedStats) :
    ∀ t ∈ videoCodecSeg stats, t.1 = "VideoCodecStat" := by
  intro t ht
  rcases hc : stats.inboundVideoStats.codecId with _ | cid
  · simp [videoCodecSeg, hc] at ht
  · simp only [videoCodecSeg, hc] at ht
    by_cases h0 : cid ≠ ""
    · rw [if_pos h0] at ht
      exact upsertMem_fst ht
    · rw [if_neg h0] at ht
      simp at ht

theorem audioCodecSeg_ids (stats : AggregatedStats) :
    ∀ t ∈ audioCodecSeg stats, t.1 = "AudioCodecStat" := by
  intro t ht
  rcases hc : stats.inboundAudioStats.codecId with _ | cid
  · simp [audioCodecSeg, hc] at ht
  · simp only [audioCodecSeg, hc] at ht
    by_cases h0 : cid ≠ ""
    · rw [if_pos h0] at ht
      exact upsertMem_fst ht
    · rw [if_neg h0] at ht
      simp at ht

theorem rttSeg_ids (stats : AggregatedStats) :
    ∀ t ∈ rttSeg stats, t.1 = "RTTStat" := by
  intro t ht
  exact upsertMem_fst (by simpa [rttSeg] using ht)

theorem durationSeg_ids (stats : AggregatedStats) :
    ∀ t ∈ durationSeg stats, t.1 = "DurationStat" := by
  intro t ht
  exact upsertMem_fst (by simpa [durationSeg] using ht)

theorem controlsSeg_ids (stats : AggregatedStats) :
    ∀ t ∈ controlsSeg stats, t.1 = "ControlsInputStat" := by
  intro t ht
  exact upsertMem_fst (by simpa [controlsSeg] using ht)

theorem qpSeg_ids (F : Formatters) (stats : AggregatedStats) :
    ∀ t ∈ qpSeg F stats, t.1 = "QPStat" := by
  intro t ht
  rcases hq : stats.sessionStats.videoEncoderAvgQP with _ | q
  · simp [qpSeg, hq] at ht
  · simp only [qpSeg, hq] at ht
    exact upsertMem_fst ht

theorem latencyEntry_ids (id title : String) (v : Option ℚ) :
    ∀ t ∈ latencyEntry id title v, t.1 = id := by
  intro t ht
  rcases v with _ | x
  · simp [latencyEntry] at ht
  · simp only [latencyEntry] at ht
    by_cases h0 : x > 0
    · rw [if_pos h0] at ht
      exact upsertMem_fst ht
    · rw [if_neg h0] at ht
      simp at ht

/-! ### Concrete configurations and inputs used by witnesses and
counterexamples. -/

def cfgOnW : StatsPanelConfiguration := ⟨true, true, true⟩

def cfgOffW : StatsPanelConfiguration := ⟨false, true, true⟩

def F0 : Formatters := ⟨fun i => toString i, fun _ => "num", fun _ => "bytes"⟩

def ivsNone : InboundVideoStats := ⟨0, none, none, none, none, none, none, none, none⟩

def iasNone : InboundAudioStats := ⟨none, none⟩

def ssf0 : SessionStatsFields := ⟨"00:10", "Keyboard", none⟩

def statsNone : AggregatedStats := ⟨ivsNone, iasNone, ssf0, [], none⟩

def statsRtt : AggregatedStats := ⟨ivsNone, iasNone, ssf0, [], some ⟨some (0.0235 : ℚ)⟩⟩

def statsCodec : AggregatedStats :=
  ⟨{ ivsNone with codecId := some "c" }, iasNone, ssf0, [("c", "xvideo/h264")], none⟩

def statsCodecMiss : AggregatedStats :=
  ⟨{ ivsNone with codecId := some "v" }, { iasNone with codecId := some "a" }, ssf0, [], none⟩

def liNone : LatencyInfo := ⟨none, none, none, none, none, none⟩

def liDecode : LatencyInfo := ⟨none, none, some (1.5 : ℚ), none, none, none⟩

def liMix : LatencyInfo := ⟨some 3, none, some 0, none, none, none⟩

def orderOps : List Upsert :=
  [("a", "t", "1"), ("b", "t", "1"), ("c", "t", "1"), ("a", "t", "2"), ("b", "t", "3")]

/-! ### Claim theorems -/

/-- C1 counterexample: with the session-stats section disabled,
`handlePlayerCount` performs no upsert at all — the registry stays empty
and no `PlayerCountStat` entry exists — refuting the claim that the
participant-count upsert happens independently of the Section Gate. -/
theorem playerCount_gate_counterexample :
    isSectionEnabled cfgOffW StatsSections.SessionStats = false ∧
    handlePlayerCount cfgOffW [] 5 = [] ∧
    displayOf (handlePlayerCount cfgOffW [] 5) "PlayerCountStat" = none := by
  refine ⟨rfl, ?_, ?_⟩ <;> decide

/-- C1 (amended): `handlePlayerCount(n)` routes through `addOrUpdateStat`
with id `PlayerCountStat` and the decimal string of `n`; the upsert is
subject to the session-stats Section Gate like every other upsert: with
the gate enabled the displayed value becomes `Players: n`, with the gate
disabled the registry is untouched. -/
theorem playerCount_upsert_gated (cfg : StatsPanelConfiguration)
    (m : List Stat) (n : Nat) :
    (isSectionEnabled cfg StatsSections.SessionStats = true →
      displayOf (handlePlayerCount cfg m n) "PlayerCountStat" =
        some (statHTML "Players" (toString n))) ∧
    (isSectionEnabled cfg StatsSections.SessionStats = false →
      handlePlayerCount cfg m n = m) := by
  constructor
  · intro hE
    exact displayOf_addOrUpdateStat_self cfg m "PlayerCountStat" "Players" (toString n) hE
  · intro hD
    exact addOrUpdateStat_disabled cfg m "PlayerCountStat" "Players" (toString n) hD

theorem playerCount_upsert_gated_witness :
    displayOf (handlePlayerCount cfgOnW [] 3) "PlayerCountStat" = some "Players: 3" := by
  have h := (playerCount_upsert_gated cfgOnW [] 3).1 rfl
  rw [h]
  decide

/-- C2: with the session-stats section disabled, `handleStats` and
`handleLatencyInfo` leave the registry completely unchanged — no entry is
created and no displayed value is modified, for every snapshot and every
latency breakdown. -/
theorem gate_disabled_no_mutation (F : Formatters) (cfg : StatsPanelConfiguration)
    (m : List Stat) (stats : AggregatedStats) (li : LatencyInfo)
    (h : isSectionEnabled cfg StatsSections.SessionStats = false) :
    handleStats F cfg m stats = m ∧ handleLatencyInfo cfg m li = m :=
  ⟨applyUpserts_disabled cfg m (handleStatsUpserts F stats) h,
   applyUpserts_disabled cfg m (handleLatencyInfoUpserts li) h⟩

theorem gate_disabled_no_mutation_witness :
    handleStats F0 cfgOffW [] statsNone = [] ∧
    handleLatencyInfo cfgOffW [] liNone = [] :=
  gate_disabled_no_mutation F0 cfgOffW [] statsNone liNone rfl

/-- C3 counterexample: after inserting `("x", "A", "1")`, a second upsert
`("x", "B", "2")` updates only the rendered HTML; the stored entry still
carries title `A` and value `1`, not the new `B`/`2` the claim requires. -/
theorem upsert_update_counterexample :
    ((addOrUpdateStat cfgOnW (addOrUpdateStat cfgOnW [] "x" "A" "1") "x" "B" "2").map
        fun st => (st.id, st.title, st.stat, st.elementHTML)) =
      [("x", "A", "1", "B: 2")] ∧
    (("A", "1") : String × String) ≠ ("B", "2") := by
  constructor <;> decide

/-- C3 (amended): with the session-stats section enabled, if the id is
absent `addOrUpdateStat` appends a fresh `Stat` carrying the id, title,
value and rendered HTML at the end of iteration order; if the id is
present, the registry's ids, titles and stored values are all left
unchanged (only the entry's rendered HTML is replaced by
`title: value`), and iteration order is unchanged. -/
theorem addOrUpdateStat_upsert_behavior (cfg : StatsPanelConfiguration)
    (m : List Stat) (id lab s : String)
    (hE : isSectionEnabled cfg StatsSections.SessionStats = true) :
    ((m.any fun st => st.id == id) = false →
      addOrUpdateStat cfg m id lab s =
        m ++ [mkStat id lab s]) ∧
    ((m.any fun st => st.id == id) = true →
      (addOrUpdateStat cfg m id lab s).map Stat.id = m.map Stat.id ∧
      (addOrUpdateStat cfg m id lab s).map Stat.title = m.map Stat.title ∧
      (addOrUpdateStat cfg m id lab s).map Stat.stat = m.map Stat.stat ∧
      displayOf (addOrUpdateStat cfg m id lab s) id = some (statHTML lab s)) := by
  constructor
  · intro hA
    simp [addOrUpdateStat, hE, hA]
  · intro hA
    have hupd : addOrUpdateStat cfg m id lab s = setElementHTML m id (statHTML lab s) := by
      simp [addOrUpdateStat, hE, hA]
    refine ⟨?_, ?_, ?_, ?_⟩
    · rw [hupd, setElementHTML_map_id]
    · rw [hupd, setElementHTML_map_title]
    · rw [hupd, setElementHTML_map_stat]
    · rw [hupd, setElementHTML_displayOf_self m id _ hA]

theorem addOrUpdateStat_upsert_behavior_witness :
    (addOrUpdateStat cfgOnW [⟨"x", "A", "1", "A: 1"⟩] "x" "B" "2").map Stat.title = ["A"] ∧
    displayOf (addOrUpdateStat cfgOnW [⟨"x", "A", "1", "A: 1"⟩] "x" "B" "2") "x" =
      some "B: 2" := by
  have h := (addOrUpdateStat_upsert_behavior cfgOnW [⟨"x", "A", "1", "A: 1"⟩]
    "x" "B" "2" rfl).2 (by decide)
  refine ⟨?_, ?_⟩
  · rw [h.2.1]
    decide
  · rw [h.2.2.2]
    decide

/-- C4: calling `addOrUpdateStat` twice in succession with the same
`(id, title, value)` triple leaves the registry exactly as after the
first call — contents and iteration order included — for every starting
registry state and every configuration. -/
theorem addOrUpdateStat_idempotent (cfg : StatsPanelConfiguration)
    (m : List Stat) (id lab s : String) :
    addOrUpdateStat cfg (addOrUpdateStat cfg m id lab s) id lab s =
      addOrUpdateStat cfg m id lab s := by
  by_cases hE : isSectionEnabled cfg StatsSections.SessionStats
  · by_cases hA : (m.any fun st => st.id == id) = true
    · have h1 : addOrUpdateStat cfg m id lab s = setElementHTML m id (statHTML lab s) := by
        simp [addOrUpdateStat, hE, hA]
      rw [h1]
      have h2 : addOrUpdateStat cfg (setElementHTML m id (statHTML lab s)) id lab s =
          setElementHTML (setElementHTML m id (statHTML lab s)) id (statHTML lab s) := by
        simp [addOrUpdateStat, hE, setElementHTML_any, hA]
      rw [h2, setElementHTML_idem]
    · have hA' : (m.any fun st => st.id == id) = false := by simpa using hA
      have h1 : addOrUpdateStat cfg m id lab s =
          m ++ [mkStat id lab s] := by
        simp [addOrUpdateStat, hE, hA']
      rw [h1]
      have hAny : ((m ++ [mkStat id lab s]).any fun st => st.id == id) = true := by
        simp [List.any_append, mkStat]
      have h2 : addOrUpdateStat cfg (m ++ [mkStat id lab s]) id lab s =
          setElementHTML (m ++ [mkStat id lab s]) id (statHTML lab s) := by
        simp [addOrUpdateStat, hE, hAny]
      rw [h2, setElementHTML_append_fresh m _ id _ hA']
      simp [setElementHTML, mkStat]
  · have hE' : isSectionEnabled cfg StatsSections.SessionStats = false := by simpa using hE
    have h1 := addOrUpdateStat_disabled cfg m id lab s hE'
    rw [h1]
    exact h1

/-- C5: iteration order of the registry ids equals first-insertion order:
applying any sequence of upserts appends exactly the not-yet-seen ids, in
the order they first occur, after the ids already present; later updates
to existing ids never reorder anything. -/
theorem registry_insertion_order (cfg : StatsPanelConfiguration)
    (m : List Stat) (l : List Upsert)
    (hE : isSectionEnabled cfg StatsSections.SessionStats = true) :
    (applyUpserts cfg m l).map Stat.id =
      m.map Stat.id ++ newIds (m.map Stat.id) (l.map fun t => t.1) := by
  induction l generalizing m with
  | nil => simp [applyUpserts_nil, newIds]
  | cons t rest ih =>
    obtain ⟨i, lab, s⟩ := t
    rw [applyUpserts_cons]
    by_cases hA : (m.any fun st => st.id == i) = true
    · have hseen : ((m.map Stat.id).any fun y => y == i) = true := by
        rw [any_map_id]; exact hA
      have h1 : addOrUpdateStat cfg m i lab s = setElementHTML m i (statHTML lab s) := by
        simp [addOrUpdateStat, hE, hA]
      rw [h1, ih, setElementHTML_map_id]
      simp [newIds, hseen]
    · have hA' : (m.any fun st => st.id == i) = false := by simpa using hA
      have hseen : ((m.map Stat.id).any fun y => y == i) = false := by
        rw [any_map_id]; exact hA'
      have h1 : addOrUpdateStat cfg m i lab s =
          m ++ [mkStat i lab s] := by
        simp [addOrUpdateStat, hE, hA']
      rw [h1, ih]
      simp [newIds, hseen, mkStat, List.append_assoc]

theorem registry_insertion_order_witness :
    (applyUpserts cfgOnW [] orderOps).map Stat.id = ["a", "b", "c"] := by
  rw [registry_insertion_order cfgOnW [] orderOps rfl]
  decide

/-- C9: none of the four operations ever deletes a registry entry or
rewrites an existing entry's id: the list of ids after any operation is
the list before, extended (possibly by nothing) at the end. -/
theorem ops_monotone_ids (F : Formatters) (cfg : StatsPanelConfiguration)
    (m : List Stat) (stats : AggregatedStats) (li : LatencyInfo)
    (n : Nat) (id lab s : String) :
    (∃ t, (handlePlayerCount cfg m n).map Stat.id = m.map Stat.id ++ t) ∧
    (∃ t, (handleStats F cfg m stats).map Stat.id = m.map Stat.id ++ t) ∧
    (∃ t, (handleLatencyInfo cfg m li).map Stat.id = m.map Stat.id ++ t) ∧
    (∃ t, (addOrUpdateStat cfg m id lab s).map Stat.id = m.map Stat.id ++ t) :=
  ⟨addOrUpdateStat_map_id cfg m "PlayerCountStat" "Players" (toString n),
   applyUpserts_map_id cfg m (handleStatsUpserts F stats),
   applyUpserts_map_id cfg m (handleLatencyInfoUpserts li),
   addOrUpdateStat_map_id cfg m id lab s⟩

/-! ### Arithmetic helper facts (rational ceilings used by witnesses) -/

theorem ceil_q_rtt : (⌈(0.0235 : ℚ) * 1000⌉ : ℤ) = 24 := by
  rw [Int.ceil_eq_iff]
  constructor <;> norm_num

theorem ceil_q_three_halves : (⌈(1.5 : ℚ)⌉ : ℤ) = 2 := by
  rw [Int.ceil_eq_iff]
  constructor <;> norm_num

theorem ceil_q_three : (⌈(3 : ℚ)⌉ : ℤ) = 3 := by
  rw [Int.ceil_eq_iff]
  constructor <;> norm_num

theorem q_three_halves_pos : (1.5 : ℚ) > 0 := by norm_num

theorem q_three_pos : (3 : ℚ) > 0 := by norm_num

theorem q_zero_not_pos : ¬((0 : ℚ) > 0) := lt_irrefl 0

/-- C6: with the gate enabled, after a full `handleStats` pass the
displayed `RTTStat` value is `rttValue`: `ceil(rtt * 1000)` as a decimal
string when the active candidate pair carries a numeric round-trip time;
the sentinel when the pair lacks the reading or when no pair is active
(the empty pair); and `0.0235` seconds yields `"24"`. -/
theorem rtt_stat_value (F : Formatters) (cfg : StatsPanelConfiguration)
    (m : List Stat) (stats : AggregatedStats)
    (hE : isSectionEnabled cfg StatsSections.SessionStats = true) :
    (displayOf (handleStats F cfg m stats) "RTTStat" =
      some (statHTML "Net RTT (ms)" (rttValue stats))) ∧
    (∀ rtt : ℚ, stats.getActiveCandidatePair = some ⟨some rtt⟩ →
      rttValue stats = toString ⌈rtt * 1000⌉) ∧
    ((stats.getActiveCandidatePair = none ∨ stats.getActiveCandidatePair = some ⟨none⟩) →
      rttValue stats = cannotCalculate) ∧
    (stats.getActiveCandidatePair = some ⟨some (0.0235 : ℚ)⟩ →
      rttValue stats = "24") := by
  refine ⟨?_, ?_, ?_, ?_⟩
  · simp only [handleStats, handleStatsUpserts, applyUpserts_append]
    rw [displayOf_applyUpserts_other cfg _ (qpSeg F stats) "RTTStat"
        (fun t ht => by rw [qpSeg_ids F stats t ht]; decide),
      displayOf_applyUpserts_other cfg _ (controlsSeg stats) "RTTStat"
        (fun t ht => by rw [controlsSeg_ids stats t ht]; decide),
      displayOf_applyUpserts_other cfg _ (durationSeg stats) "RTTStat"
        (fun t ht => by rw [durationSeg_ids stats t ht]; decide)]
    simp only [rttSeg]
    rw [displayOf_applyUpserts_singleton cfg _ "RTTStat" "Net RTT (ms)" (rttValue stats) hE]
  · intro rtt h
    simp [rttValue, h]
  · rintro (h | h) <;> simp [rttValue, h, CandidatePairStats.empty]
  · intro h
    simp only [rttValue, h]
    rw [ceil_q_rtt]
    decide

theorem rtt_stat_value_witness :
    displayOf (handleStats F0 cfgOnW [] statsRtt) "RTTStat" =
      some "Net RTT (ms): 24" := by
  have h := rtt_stat_value F0 cfgOnW [] statsRtt rfl
  rw [h.1, h.2.2.2 rfl]
  decide

/-- C7: with the gate enabled, every `handleStats` pass upserts
`PacketsLostStat`; the displayed value is the injected locale formatting
of `packetsLost` when the field exists on the inbound video stats, and
the sentinel `Chrome only` when it does not. -/
theorem packetsLost_stat_value (F : Formatters) (cfg : StatsPanelConfiguration)
    (m : List Stat) (stats : AggregatedStats)
    (hE : isSectionEnabled cfg StatsSections.SessionStats = true) :
    displayOf (handleStats F cfg m stats) "PacketsLostStat" =
      some (statHTML "Packets Lost"
        (match stats.inboundVideoStats.packetsLost with
         | some p => F.numberFormat p
         | none => "Chrome only")) := by
  simp only [handleStats, handleStatsUpserts, applyUpserts_append]
  rw [displayOf_applyUpserts_other cfg _ (qpSeg F stats) "PacketsLostStat"
      (fun t ht => by rw [qpSeg_ids F stats t ht]; decide),
    displayOf_applyUpserts_other cfg _ (controlsSeg stats) "PacketsLostStat"
      (fun t ht => by rw [controlsSeg_ids stats t ht]; decide),
    displayOf_applyUpserts_other cfg _ (durationSeg stats) "PacketsLostStat"
      (fun t ht => by rw [durationSeg_ids stats t ht]; decide),
    displayOf_applyUpserts_other cfg _ (rttSeg stats) "PacketsLostStat"
      (fun t ht => by rw [rttSeg_ids stats t ht]; decide),
    displayOf_applyUpserts_other cfg _ (audioCodecSeg stats) "PacketsLostStat"
      (fun t ht => by rw [audioCodecSeg_ids stats t ht]; decide),
    displayOf_applyUpserts_other cfg _ (videoCodecSeg stats) "PacketsLostStat"
      (fun t ht => by rw [videoCodecSeg_ids stats t ht]; decide),
    displayOf_applyUpserts_other cfg _ (framesDroppedSeg F stats) "PacketsLostStat"
      (fun t ht => by rw [framesDroppedSeg_ids F stats t ht]; decide),
    displayOf_applyUpserts_other cfg _ (framerateSeg F stats) "PacketsLostStat"
      (fun t ht => by rw [framerateSeg_ids F stats t ht]; decide),
    displayOf_applyUpserts_other cfg _ (framesDecodedSeg F stats) "PacketsLostStat"
      (fun t ht => by rw [framesDecodedSeg_ids F stats t ht]; decide),
    displayOf_applyUpserts_other cfg _ (videoResSeg F stats) "PacketsLostStat"
      (fun t ht => by rw [videoResSeg_ids F stats t ht]; decide),
    displayOf_applyUpserts_other cfg _ (audioBitrateSeg F stats) "PacketsLostStat"
      (fun t ht => by rw [audioBitrateSeg_ids F stats t ht]; decide),
    displayOf_applyUpserts_other cfg _ (videoBitrateSeg F stats) "PacketsLostStat"
      (fun t ht => by rw [videoBitrateSeg_ids F stats t ht]; decide)]
  simp only [packetsLostSeg]
  rw [displayOf_applyUpserts_singleton cfg _ "PacketsLostStat" "Packets Lost" _ hE]

theorem packetsLost_stat_value_witness :
    displayOf (handleStats F0 cfgOnW [] statsNone) "PacketsLostStat" =
      some "Packets Lost: Chrome only" := by
  rw [packetsLost_stat_value F0 cfgOnW [] statsNone rfl]
  decide

theorem isPrefixOf_append_self (l r : List Char) : l.isPrefixOf (l ++ r) = true := by
  induction l with
  | nil => simp [List.isPrefixOf]
  | cons c cs ih => simp [List.isPrefixOf, ih]

theorem replaceFirstList_self (p rest : List Char) :
    replaceFirstList p [] (p ++ rest) = rest := by
  cases p with
  | nil =>
    cases rest with
    | nil => simp [replaceFirstList, List.isPrefixOf]
    | cons c cs => simp [replaceFirstList, List.isPrefixOf]
  | cons d ds =>
    have hpre := isPrefixOf_append_self (d :: ds) rest
    simp only [List.cons_append] at hpre ⊢
    simp [replaceFirstList, hpre, List.drop_left]

/-- JS `replace` with the pattern equal to a leading prefix of the string
removes exactly that prefix: the match at position 0 is the first match. -/
theorem jsReplaceFirst_strip (p r : String) : jsReplaceFirst (p ++ r) p "" = r := by
  have h0 : ("" : String).toList = [] := rfl
  have h1 : (p ++ r).toList = p.toList ++ r.toList := by
    simp [String.toList]
  unfold jsReplaceFirst
  rw [h0, h1, replaceFirstList_self]
  rfl

/-- C10 counterexample: with mime type `xvideo/h264`, which does not
begin with `video/`, the displayed codec value is `xh264` — the first
occurrence of `video/` was removed from the middle of the string — and
not the untouched mime type the claim predicts. -/
theorem codec_replace_counterexample :
    displayOf (handleStats F0 cfgOnW [] statsCodec) "VideoCodecStat" =
      some (statHTML "Video codec" "xh264") ∧
    "xh264" ≠ "xvideo/h264" := by
  constructor <;> decide

/-- C10 (amended): with the gate enabled and a truthy codec id, the codec
stat is always upserted; a codec id missing from the snapshot's codec
table yields the empty string (no sentinel, no skipped upsert); the
value otherwise is the mime type with the first occurrence of `video/`
(resp. `audio/`) anywhere in it removed — which strips the prefix
whenever the mime type actually begins with it, but can also rewrite
mime types containing the substring elsewhere. -/
theorem codec_stat_value (F : Formatters) (cfg : StatsPanelConfiguration)
    (m : List Stat) (stats : AggregatedStats)
    (hE : isSectionEnabled cfg StatsSections.SessionStats = true) :
    (∀ cid, stats.inboundVideoStats.codecId = some cid → cid ≠ "" →
      displayOf (handleStats F cfg m stats) "VideoCodecStat" =
        some (statHTML "Video codec"
          (match mapGet stats.codecs cid with
           | some mime => jsReplaceFirst mime "video/" ""
           | none => ""))) ∧
    (∀ cid, stats.inboundAudioStats.codecId = some cid → cid ≠ "" →
      displayOf (handleStats F cfg m stats) "AudioCodecStat" =
        some (statHTML "Audio codec"
          (match mapGet stats.codecs cid with
           | some mime => jsReplaceFirst mime "audio/" ""
           | none => ""))) ∧
    (∀ r, jsReplaceFirst ("video/" ++ r) "video/" "" = r) ∧
    (∀ r, jsReplaceFirst ("audio/" ++ r) "audio/" "" = r) := by
  refine ⟨?_, ?_, fun r => jsReplaceFirst_strip "video/" r,
    fun r => jsReplaceFirst_strip "audio/" r⟩
  · intro cid hcid hne
    simp only [handleStats, handleStatsUpserts, applyUpserts_append]
    rw [displayOf_applyUpserts_other cfg _ (qpSeg F stats) "VideoCodecStat"
        (fun t ht => by rw [qpSeg_ids F stats t ht]; decide),
      displayOf_applyUpserts_other cfg _ (controlsSeg stats) "VideoCodecStat"
        (fun t ht => by rw [controlsSeg_ids stats t ht]; decide),
      displayOf_applyUpserts_other cfg _ (durationSeg stats) "VideoCodecStat"
        (fun t ht => by rw [durationSeg_ids stats t ht]; decide),
      displayOf_applyUpserts_other cfg _ (rttSeg stats) "VideoCodecStat"
        (fun t ht => by rw [rttSeg_ids stats t ht]; decide),
      displayOf_applyUpserts_other cfg _ (audioCodecSeg stats) "VideoCodecStat"
        (fun t ht => by rw [audioCodecSeg_ids stats t ht]; decide)]
    simp only [videoCodecSeg, hcid]
    rw [if_pos hne]
    rw [displayOf_applyUpserts_singleton cfg _ "VideoCodecStat" "Video codec" _ hE]
  · intro cid hcid hne
    simp only [handleStats, handleStatsUpserts, applyUpserts_append]
    rw [displayOf_applyUpserts_other cfg _ (qpSeg F stats) "AudioCodecStat"
        (fun t ht => by rw [qpSeg_ids F stats t ht]; decide),
      displayOf_applyUpserts_other cfg _ (controlsSeg stats) "AudioCodecStat"
        (fun t ht => by rw [controlsSeg_ids stats t ht]; decide),
      displayOf_applyUpserts_other cfg _ (durationSeg stats) "AudioCodecStat"
        (fun t ht => by rw [durationSeg_ids stats t ht]; decide),
      displayOf_applyUpserts_other cfg _ (rttSeg stats) "AudioCodecStat"
        (fun t ht => by rw [rttSeg_ids stats t ht]; decide)]
    simp only [audioCodecSeg, hcid]
    rw [if_pos hne]
    rw [displayOf_applyUpserts_singleton cfg _ "AudioCodecStat" "Audio codec" _ hE]

theorem codec_stat_value_witness :
    displayOf (handleStats F0 cfgOnW [] statsCodecMiss) "VideoCodecStat" =
      some "Video codec: " ∧
    displayOf (handleStats F0 cfgOnW [] statsCodecMiss) "AudioCodecStat" =
      some "Audio codec: " ∧
    jsReplaceFirst ("video/" ++ "vp9") "video/" "" = "vp9" := by
  have h := codec_stat_value F0 cfgOnW [] statsCodecMiss rfl
  refine ⟨?_, ?_, h.2.2.1 "vp9"⟩
  · rw [h.1 "v" rfl (by decide)]
    decide
  · rw [h.2.1 "a" rfl (by decide)]
    decide

theorem latencyEntry_ne (id title : String) (v : Option ℚ) (j : String)
    (h : id ≠ j) : ∀ t ∈ latencyEntry id title v, t.1 ≠ j := by
  intro t ht
  rw [latencyEntry_ids id title v t ht]
  exact h

theorem mem_append_ne {l1 l2 : List Upsert} {j : String}
    (h1 : ∀ t ∈ l1, t.1 ≠ j) (h2 : ∀ t ∈ l2, t.1 ≠ j) :
    ∀ t ∈ l1 ++ l2, t.1 ≠ j := by
  intro t ht
  rcases List.mem_append.mp ht with h | h
  · exact h1 t h
  · exact h2 t h

/-- The displayed value of one latency id after running a pre-segment,
its own guarded entry, and a post-segment: the upsert happens exactly
when the reading is defined and strictly positive, and otherwise the
previously displayed value survives. -/
theorem displayOf_latency_field (cfg : StatsPanelConfiguration) (m : List Stat)
    (pre post : List Upsert) (id title : String) (v : Option ℚ)
    (hE : isSectionEnabled cfg StatsSections.SessionStats = true)
    (hpre : ∀ t ∈ pre, t.1 ≠ id) (hpost : ∀ t ∈ post, t.1 ≠ id) :
    displayOf (applyUpserts cfg m (pre ++ latencyEntry id title v ++ post)) id =
      (match v with
       | some x =>
         if x > 0 then some (statHTML title (toString ⌈x⌉)) else displayOf m id
       | none => displayOf m id) := by
  rw [applyUpserts_append, applyUpserts_append,
    displayOf_applyUpserts_other cfg _ post id hpost]
  rcases v with _ | x
  · simp only [latencyEntry, applyUpserts_nil]
    exact displayOf_applyUpserts_other cfg m pre id hpre
  · by_cases h0 : x > 0
    · simp only [latencyEntry, if_pos h0]
      rw [displayOf_applyUpserts_singleton cfg _ id title _ hE]
    · simp only [latencyEntry, if_neg h0, applyUpserts_nil]
      exact displayOf_applyUpserts_other cfg m pre id hpre

theorem handleLatencyInfo_sender_display (cfg : StatsPanelConfiguration)
    (m : List Stat) (li : LatencyInfo)
    (hE : isSectionEnabled cfg StatsSections.SessionStats = true) :
    displayOf (handleLatencyInfo cfg m li) "SenderSideLatency" =
      (match li.SenderLatencyMs with
       | some x =>
         if x > 0 then some (statHTML "Sender latency (ms)" (toString ⌈x⌉))
         else displayOf m "SenderSideLatency"
       | none => displayOf m "SenderSideLatency") := by
  have hsplit : handleLatencyInfoUpserts li =
      ([] : List Upsert) ++
      latencyEntry "SenderSideLatency" "Sender latency (ms)" li.SenderLatencyMs ++
      (latencyEntry "AvgAssemblyDelay" "Assembly delay (ms)" li.AverageAssemblyDelayMs ++
       (latencyEntry "AvgDecodeDelay" "Decode time (ms)" li.AverageDecodeLatencyMs ++
        (latencyEntry "AvgJitterBufferDelay" "Jitter buffer (ms)" li.AverageJitterBufferDelayMs ++
         (latencyEntry "AvgProcessingDelay" "Processing delay (ms)" li.AverageProcessingDelayMs ++
          latencyEntry "AvgE2ELatency" "Total latency (ms)" li.AverageE2ELatency)))) := by
    simp only [handleLatencyInfoUpserts, List.append_assoc, List.nil_append]
  show displayOf (applyUpserts cfg m (handleLatencyInfoUpserts li)) _ = _
  rw [hsplit]
  exact displayOf_latency_field cfg m _ _ _ _ _ hE (by simp)
    (mem_append_ne (latencyEntry_ne _ _ _ _ (by decide))
      (mem_append_ne (latencyEntry_ne _ _ _ _ (by decide))
        (mem_append_ne (latencyEntry_ne _ _ _ _ (by decide))
          (mem_append_ne (latencyEntry_ne _ _ _ _ (by decide))
            (latencyEntry_ne _ _ _ _ (by decide))))))

theorem handleLatencyInfo_assembly_display (cfg : StatsPanelConfiguration)
    (m : List Stat) (li : LatencyInfo)
    (hE : isSectionEnabled cfg StatsSections.SessionStats = true) :
    displayOf (handleLatencyInfo cfg m li) "AvgAssemblyDelay" =
      (match li.AverageAssemblyDelayMs with
       | some x =>
         if x > 0 then some (statHTML "Assembly delay (ms)" (toString ⌈x⌉))
         else displayOf m "AvgAssemblyDelay"
       | none => displayOf m "AvgAssemblyDelay") := by
  have hsplit : handleLatencyInfoUpserts li =
      latencyEntry "SenderSideLatency" "Sender latency (ms)" li.SenderLatencyMs ++
      latencyEntry "AvgAssemblyDelay" "Assembly delay (ms)" li.AverageAssemblyDelayMs ++
      (latencyEntry "AvgDecodeDelay" "Decode time (ms)" li.AverageDecodeLatencyMs ++
       (latencyEntry "AvgJitterBufferDelay" "Jitter buffer (ms)" li.AverageJitterBufferDelayMs ++
        (latencyEntry "AvgProcessingDelay" "Processing delay (ms)" li.AverageProcessingDelayMs ++
         latencyEntry "AvgE2ELatency" "Total latency (ms)" li.AverageE2ELatency))) := by
    simp only [handleLatencyInfoUpserts, List.append_assoc]
  show displayOf (applyUpserts cfg m (handleLatencyInfoUpserts li)) _ = _
  rw [hsplit]
  exact displayOf_latency_field cfg m _ _ _ _ _ hE
    (latencyEntry_ne _ _ _ _ (by decide))
    (mem_append_ne (latencyEntry_ne _ _ _ _ (by decide))
      (mem_append_ne (latencyEntry_ne _ _ _ _ (by decide))
        (mem_append_ne (latencyEntry_ne _ _ _ _ (by decide))
          (latencyEntry_ne _ _ _ _ (by decide)))))

theorem handleLatencyInfo_decode_display (cfg : StatsPanelConfiguration)
    (m : List Stat) (li : LatencyInfo)
    (hE : isSectionEnabled cfg StatsSections.SessionStats = true) :
    displayOf (handleLatencyInfo cfg m li) "AvgDecodeDelay" =
      (match li.AverageDecodeLatencyMs with
       | some x =>
         if x > 0 then some (statHTML "Decode time (ms)" (toString ⌈x⌉))
         else displayOf m "AvgDecodeDelay"
       | none => displayOf m "AvgDecodeDelay") := by
  have hsplit : handleLatencyInfoUpserts li =
      (latencyEntry "SenderSideLatency" "Sender latency (ms)" li.SenderLatencyMs ++
       latencyEntry "AvgAssemblyDelay" "Assembly delay (ms)" li.AverageAssemblyDelayMs) ++
      latencyEntry "AvgDecodeDelay" "Decode time (ms)" li.AverageDecodeLatencyMs ++
      (latencyEntry "AvgJitterBufferDelay" "Jitter buffer (ms)" li.AverageJitterBufferDelayMs ++
       (latencyEntry "AvgProcessingDelay" "Processing delay (ms)" li.AverageProcessingDelayMs ++
        latencyEntry "AvgE2ELatency" "Total latency (ms)" li.AverageE2ELatency)) := by
    simp only [handleLatencyInfoUpserts, List.append_assoc]
  show displayOf (applyUpserts cfg m (handleLatencyInfoUpserts li)) _ = _
  rw [hsplit]
  exact displayOf_latency_field cfg m _ _ _ _ _ hE
    (mem_append_ne (latencyEntry_ne _ _ _ _ (by decide))
      (latencyEntry_ne _ _ _ _ (by decide)))
    (mem_append_ne (latencyEntry_ne _ _ _ _ (by decide))
      (mem_append_ne (latencyEntry_ne _ _ _ _ (by decide))
        (latencyEntry_ne _ _ _ _ (by decide))))

theorem handleLatencyInfo_jitter_display (cfg : StatsPanelConfiguration)
    (m : List Stat) (li : LatencyInfo)
    (hE : isSectionEnabled cfg StatsSections.SessionStats = true) :
    displayOf (handleLatencyInfo cfg m li) "AvgJitterBufferDelay" =
      (match li.AverageJitterBufferDelayMs with
       | some x =>
         if x > 0 then some (statHTML "Jitter buffer (ms)" (toString ⌈x⌉))
         else displayOf m "AvgJitterBufferDelay"
       | none => displayOf m "AvgJitterBufferDelay") := by
  have hsplit : handleLatencyInfoUpserts li =
      (latencyEntry "SenderSideLatency" "Sender latency (ms)" li.SenderLatencyMs ++
       (latencyEntry "AvgAssemblyDelay" "Assembly delay (ms)" li.AverageAssemblyDelayMs ++
        latencyEntry "AvgDecodeDelay" "Decode time (ms)" li.AverageDecodeLatencyMs)) ++
      latencyEntry "AvgJitterBufferDelay" "Jitter buffer (ms)" li.AverageJitterBufferDelayMs ++
      (latencyEntry "AvgProcessingDelay" "Processing delay (ms)" li.AverageProcessingDelayMs ++
       latencyEntry "AvgE2ELatency" "Total latency (ms)" li.AverageE2ELatency) := by
    simp only [handleLatencyInfoUpserts, List.append_assoc]
  show displayOf (applyUpserts cfg m (handleLatencyInfoUpserts li)) _ = _
  rw [hsplit]
  exact displayOf_latency_field cfg m _ _ _ _ _ hE
    (mem_append_ne (latencyEntry_ne _ _ _ _ (by decide))
      (mem_append_ne (latencyEntry_ne _ _ _ _ (by decide))
        (latencyEntry_ne _ _ _ _ (by decide))))
    (mem_append_ne (latencyEntry_ne _ _ _ _ (by decide))
      (latencyEntry_ne _ _ _ _ (by decide)))

theorem handleLatencyInfo_processing_display (cfg : StatsPanelConfiguration)
    (m : List Stat) (li : LatencyInfo)
    (hE : isSectionEnabled cfg StatsSections.SessionStats = true) :
    displayOf (handleLatencyInfo cfg m li) "AvgProcessingDelay" =
      (match li.AverageProcessingDelayMs with
       | some x =>
         if x > 0 then some (statHTML "Processing delay (ms)" (toString ⌈x⌉))
         else displayOf m "AvgProcessingDelay"
       | none => displayOf m "AvgProcessingDelay") := by
  have hsplit : handleLatencyInfoUpserts li =
      (latencyEntry "SenderSideLatency" "Sender latency (ms)" li.SenderLatencyMs ++
       (latencyEntry "AvgAssemblyDelay" "Assembly delay (ms)" li.AverageAssemblyDelayMs ++
        (latencyEntry "AvgDecodeDelay" "Decode time (ms)" li.AverageDecodeLatencyMs ++
         latencyEntry "AvgJitterBufferDelay" "Jitter buffer (ms)" li.AverageJitterBufferDelayMs))) ++
      latencyEntry "AvgProcessingDelay" "Processing delay (ms)" li.AverageProcessingDelayMs ++
      latencyEntry "AvgE2ELatency" "Total latency (ms)" li.AverageE2ELatency := by
    simp only [handleLatencyInfoUpserts, List.append_assoc]
  show displayOf (applyUpserts cfg m (handleLatencyInfoUpserts li)) _ = _
  rw [hsplit]
  exact displayOf_latency_field cfg m _ _ _ _ _ hE
    (mem_append_ne (latencyEntry_ne _ _ _ _ (by decide))
      (mem_append_ne (latencyEntry_ne _ _ _ _ (by decide))
        (mem_append_ne (latencyEntry_ne _ _ _ _ (by decide))
          (latencyEntry_ne _ _ _ _ (by decide)))))
    (latencyEntry_ne _ _ _ _ (by decide))

theorem handleLatencyInfo_e2e_display (cfg : StatsPanelConfiguration)
    (m : List Stat) (li : LatencyInfo)
    (hE : isSectionEnabled cfg StatsSections.SessionStats = true) :
    displayOf (handleLatencyInfo cfg m li) "AvgE2ELatency" =
      (match li.AverageE2ELatency with
       | some x =>
         if x > 0 then some (statHTML "Total latency (ms)" (toString ⌈x⌉))
         else displayOf m "AvgE2ELatency"
       | none => displayOf m "AvgE2ELatency") := by
  have hsplit : handleLatencyInfoUpserts li =
      (latencyEntry "SenderSideLatency" "Sender latency (ms)" li.SenderLatencyMs ++
       (latencyEntry "AvgAssemblyDelay" "Assembly delay (ms)" li.AverageAssemblyDelayMs ++
        (latencyEntry "AvgDecodeDelay" "Decode time (ms)" li.AverageDecodeLatencyMs ++
         (latencyEntry "AvgJitterBufferDelay" "Jitter buffer (ms)" li.AverageJitterBufferDelayMs ++
          latencyEntry "AvgProcessingDelay" "Processing delay (ms)" li.AverageProcessingDelayMs)))) ++
      latencyEntry "AvgE2ELatency" "Total latency (ms)" li.AverageE2ELatency ++
      ([] : List Upsert) := by
    simp only [handleLatencyInfoUpserts, List.append_assoc, List.append_nil]
  show displayOf (applyUpserts cfg m (handleLatencyInfoUpserts li)) _ = _
  rw [hsplit]
  exact displayOf_latency_field cfg m _ _ _ _ _ hE
    (mem_append_ne (latencyEntry_ne _ _ _ _ (by decide))
      (mem_append_ne (latencyEntry_ne _ _ _ _ (by decide))
        (mem_append_ne (latencyEntry_ne _ _ _ _ (by decide))
          (mem_append_ne (latencyEntry_ne _ _ _ _ (by decide))
            (latencyEntry_ne _ _ _ _ (by decide))))))
    (by simp)

/-- C8 counterexample: an already-millisecond decode reading of `1.5`
displays as `Decode time (ms): 2` — `Math.ceil` applied to the value
itself — not the `1500` that a seconds-to-milliseconds conversion
(`ceil(field * 1000)`) would produce. -/
theorem latency_roundToMillis_counterexample :
    displayOf (handleLatencyInfo cfgOnW [] liDecode) "AvgDecodeDelay" =
      some (statHTML "Decode time (ms)" "2") ∧
    statHTML "Decode time (ms)" "2" ≠ statHTML "Decode time (ms)" "1500" := by
  constructor
  · rw [handleLatencyInfo_decode_display cfgOnW [] liDecode rfl]
    simp only [liDecode]
    rw [if_pos q_three_halves_pos, ceil_q_three_halves]
    decide
  · decide

/-- C8 (amended): for each of the six latency fields, `handleLatencyInfo`
upserts the corresponding stat if and only if the field is defined and
strictly greater than zero, with value `Math.ceil(field)` stringified —
the fields are already millisecond quantities and are only rounded up to
whole milliseconds, with no seconds-to-milliseconds scaling; an absent or
non-positive reading (in particular a zero decode latency) leaves the
stat's previously displayed value untouched. -/
theorem latency_upsert_policy (cfg : StatsPanelConfiguration)
    (m : List Stat) (li : LatencyInfo)
    (hE : isSectionEnabled cfg StatsSections.SessionStats = true) :
    (displayOf (handleLatencyInfo cfg m li) "SenderSideLatency" =
      (match li.SenderLatencyMs with
       | some x =>
         if x > 0 then some (statHTML "Sender latency (ms)" (toString ⌈x⌉))
         else displayOf m "SenderSideLatency"
       | none => displayOf m "SenderSideLatency")) ∧
    (displayOf (handleLatencyInfo cfg m li) "AvgAssemblyDelay" =
      (match li.AverageAssemblyDelayMs with
       | some x =>
         if x > 0 then some (statHTML "Assembly delay (ms)" (toString ⌈x⌉))
         else displayOf m "AvgAssemblyDelay"
       | none => displayOf m "AvgAssemblyDelay")) ∧
    (displayOf (handleLatencyInfo cfg m li) "AvgDecodeDelay" =
      (match li.AverageDecodeLatencyMs with
       | some x =>
         if x > 0 then some (statHTML "Decode time (ms)" (toString ⌈x⌉))
         else displayOf m "AvgDecodeDelay"
       | none => displayOf m "AvgDecodeDelay")) ∧
    (displayOf (handleLatencyInfo cfg m li) "AvgJitterBufferDelay" =
      (match li.AverageJitterBufferDelayMs with
       | some x =>
         if x > 0 then some (statHTML "Jitter buffer (ms)" (toString ⌈x⌉))
         else displayOf m "AvgJitterBufferDelay"
       | none => displayOf m "AvgJitterBufferDelay")) ∧
    (displayOf (handleLatencyInfo cfg m li) "AvgProcessingDelay" =
      (match li.AverageProcessingDelayMs with
       | some x =>
         if x > 0 then some (statHTML "Processing delay (ms)" (toString ⌈x⌉))
         else displayOf m "AvgProcessingDelay"
       | none => displayOf m "AvgProcessingDelay")) ∧
    (displayOf (handleLatencyInfo cfg m li) "AvgE2ELatency" =
      (match li.AverageE2ELatency with
       | some x =>
         if x > 0 then some (statHTML "Total latency (ms)" (toString ⌈x⌉))
         else displayOf m "AvgE2ELatency"
       | none => displayOf m "AvgE2ELatency")) :=
  ⟨handleLatencyInfo_sender_display cfg m li hE,
   handleLatencyInfo_assembly_display cfg m li hE,
   handleLatencyInfo_decode_display cfg m li hE,
   handleLatencyInfo_jitter_display cfg m li hE,
   handleLatencyInfo_processing_display cfg m li hE,
   handleLatencyInfo_e2e_display cfg m li hE⟩

theorem latency_upsert_policy_witness :
    displayOf (handleLatencyInfo cfgOnW [] liMix) "SenderSideLatency" =
      some "Sender latency (ms): 3" ∧
    displayOf (handleLatencyInfo cfgOnW [] liMix) "AvgDecodeDelay" = none := by
  have h := latency_upsert_policy cfgOnW [] liMix rfl
  constructor
  · rw [h.1]
    simp only [liMix]
    rw [if_pos q_three_pos, ceil_q_three]
    decide
  · rw [h.2.2.1]
    simp only [liMix]
    rw [if_neg q_zero_not_pos]
    decide
